import Mathlib

/-!
Shallow embedding of the Mastermind solving engine (`mastermind.py`):
feedback scoring (`calculate_feedback`), candidate-space generation
(`itertools.product` / `itertools.permutations`), candidate filtering,
the minimax guess selector (`MastermindGame._minimax_guess`,
`MastermindGame.next_guess`), and the turn logic (`MastermindGame.play_turn`).

Python machine model used throughout:
* colors are the six strings of the module constant `COLORS`, embedded as the
  inductive type `Color`;
* Python `int` is embedded as `Int` (arbitrary precision, no overflow);
* the one Python exception the engine can actually raise (`ValueError`, from
  `random.sample` with an oversized sample and from `max()` on an empty
  sequence) is embedded through `Except PyError`; the error classes named by
  the design document but absent from the source are included as further
  constructors of `PyError` so that statements about them can be expressed;
* the randomness of `random.sample(COLORS, code_length)` is embedded by
  passing the drawn list as an explicit parameter (`secretDraw`) together
  with its support `sampleSupport` (every value `random.sample` can return).
-/

/-- The six colors of the module constant `COLORS` in `mastermind.py`. -/
inductive Color : Type
  | Red | Green | Yellow | Blue | Purple | Orange
deriving DecidableEq, Fintype, Repr

/-- `COLORS = ['Red', 'Green', 'Yellow', 'Blue', 'Purple', 'Orange']`. -/
def COLORS : List Color :=
  [Color.Red, Color.Green, Color.Yellow, Color.Blue, Color.Purple, Color.Orange]

/-- `sum(g == c for g, c in zip(guess, code))` — the `correct_position`
count of `calculate_feedback`. -/
def exactMatches (guess code : List Color) : Nat :=
  (guess.zip code).countP (fun gc => decide (gc.1 = gc.2))

/-- `sum(min(guess.count(color), code.count(color)) for color in set(guess))`
— the total color overlap summed inside `calculate_feedback`.  Python's
`set(guess)` iterates each distinct element of `guess` exactly once (in an
unspecified order); `List.dedup` does the same and the sum is
order-independent. -/
def colorTotal (guess code : List Color) : Nat :=
  (guess.dedup.map (fun s => min (guess.count s) (code.count s))).sum

/-- `calculate_feedback(guess, code)` from `mastermind.py` (lines 13-42):
`correct_position` is the zip count, `correct_color` is the color overlap
total minus `correct_position` (a Python `int` subtraction, hence `Int`). -/
def calculate_feedback (guess code : List Color) : Int × Int :=
  let correct_position := exactMatches guess code
  let correct_color : Int := (colorTotal guess code : Int) - (correct_position : Int)
  ((correct_position : Int), correct_color)

/-- The Python exceptions relevant to the engine.  `valueError` is the only
one the source can actually raise (`random.sample` with a sample larger than
the population; `max()` of an empty sequence).  The remaining constructors
are the error classes named by the design document; the source defines none
of them and never raises them — they are present only so that claims about
them can be stated. -/
inductive PyError : Type
  | valueError
  | invalidConfigurationError
  | inconsistentStateError
  | invalidGuessError
deriving DecidableEq, Repr

/-- `itertools.product(COLORS, repeat=n)`: all length-`n` sequences over
`COLORS`, first position varying slowest. -/
def productCodes : Nat → List (List Color)
  | 0 => [[]]
  | n + 1 => COLORS.flatMap (fun c => (productCodes n).map (fun rest => c :: rest))

/-- `itertools.permutations(pool, n)`: all length-`n` sequences of pairwise
distinct elements of `pool`, each first element taken in pool order followed
by the permutations of the remaining pool. -/
def permCodes : List Color → Nat → List (List Color)
  | _, 0 => [[]]
  | pool, n + 1 => pool.flatMap (fun c => (permCodes (pool.erase c) n).map (fun rest => c :: rest))

/-- The support of `random.sample(COLORS, k)`: `random.sample` draws `k`
*distinct* elements (sampling without replacement), so the values it can
return are exactly the `k`-permutations of `COLORS`. -/
def sampleSupport (k : Nat) : List (List Color) :=
  permCodes COLORS k

/-- The attributes of a `MastermindGame` instance (lines 80-90). -/
structure MastermindGame : Type where
  allow_duplicates : Bool
  code_length : Nat
  all_codes : List (List Color)
  secret_code : List Color
  possible_codes : List (List Color)
  guesses : List (List Color)
  feedbacks : List (Int × Int)
deriving DecidableEq, Repr

/-- `MastermindGame.__init__(allow_duplicates, code_length)` (lines 70-90).
`all_codes` is `itertools.product` or `itertools.permutations` according to
`allow_duplicates`; the secret is `tuple(random.sample(COLORS, code_length))`,
embedded as the explicit draw `secretDraw` (ranging over
`sampleSupport code_length`); `random.sample` raises `ValueError` when the
requested sample size exceeds the population `COLORS`, aborting
construction. -/
def initGame (allow_duplicates : Bool) (code_length : Nat) (secretDraw : List Color) :
    Except PyError MastermindGame :=
  let all_codes := if allow_duplicates then productCodes code_length
                   else permCodes COLORS code_length
  if COLORS.length < code_length then
    Except.error PyError.valueError
  else
    Except.ok { allow_duplicates := allow_duplicates
                code_length := code_length
                all_codes := all_codes
                secret_code := secretDraw
                possible_codes := all_codes
                guesses := []
                feedbacks := [] }

/-- The list comprehension of `play_turn` line 112:
`[code for code in self.possible_codes if calculate_feedback(guess, code) == feedback]`. -/
def filterCodes (possible : List (List Color)) (guess : List Color) (feedback : Int × Int) :
    List (List Color) :=
  possible.filter (fun code => decide (calculate_feedback guess code = feedback))

/-- `MastermindGame.play_turn(guess)` (lines 92-113): score the guess against
the secret, append guess and feedback to the histories, return `True` without
filtering when the feedback equals `(code_length, 0)`, otherwise filter
`possible_codes` and return `False`.  No operation in the body can raise, so
the result is always `Except.ok`. -/
def play_turn (st : MastermindGame) (guess : List Color) :
    Except PyError (Bool × MastermindGame) :=
  let feedback := calculate_feedback guess st.secret_code
  if feedback = ((st.code_length : Int), (0 : Int)) then
    Except.ok (true, { st with guesses := st.guesses ++ [guess]
                               feedbacks := st.feedbacks ++ [feedback] })
  else
    Except.ok (false, { st with guesses := st.guesses ++ [guess]
                                feedbacks := st.feedbacks ++ [feedback]
                                possible_codes := filterCodes st.possible_codes guess feedback })

/-- The distinct-value multiplicity list of `l`: the values of the Python
dictionary `feedback_counts` built by `_minimax_guess` (one entry per
distinct element, mapped to its number of occurrences). -/
def countsList {β : Type} [DecidableEq β] (l : List β) : List Nat :=
  l.dedup.map (fun x => l.count x)

/-- Maximum of a list of naturals with 0 for the empty list. -/
def listMax (l : List Nat) : Nat :=
  l.foldl max 0

/-- `max(feedback_counts.values())` where `feedback_counts` counts the
occurrences of each distinct element of `l`: Python's `max` raises
`ValueError` on an empty sequence, hence `none` for `l = []`.  For nonempty
`l` every multiplicity is at least 1, so folding `max` from 0 computes
exactly `max(feedback_counts.values())`. -/
def maxCount {β : Type} [DecidableEq β] (l : List β) : Option Nat :=
  match l with
  | [] => none
  | _ => some (listMax (countsList l))

/-- `max_eliminations < min_max_eliminations` where the running minimum
starts at `float('inf')` (embedded as `none`): every integer compares below
infinity. -/
def ltOptInf (w : Nat) : Option Nat → Bool
  | none => true
  | some bw => decide (w < bw)

/-- The guess loop of `_minimax_guess` (lines 138-157): for each guess `g` in
turn, compute `max(feedback_counts.values())` over `possible` (raising
`ValueError` when `possible` is empty) and keep `g` as `best_guess` exactly
when its worst count strictly improves the running minimum. -/
def minimax_fold (possible : List (List Color)) :
    List (List Color) → Option (List Color) → Option Nat →
    Except PyError (Option (List Color))
  | [], best, _ => Except.ok best
  | g :: rest, best, bestW =>
    match maxCount (possible.map (calculate_feedback g)) with
    | none => Except.error PyError.valueError
    | some w =>
      if ltOptInf w bestW then minimax_fold possible rest (some g) (some w)
      else minimax_fold possible rest best bestW

/-- `MastermindGame._minimax_guess()` (lines 128-165): iterate over
`self.all_codes` with `best_guess = None` and
`min_max_eliminations = float('inf')`, returning the final `best_guess`
(`None` only when `all_codes` is empty). -/
def minimax_guess (all_codes possible : List (List Color)) :
    Except PyError (Option (List Color)) :=
  minimax_fold possible all_codes none none

/-- `MastermindGame.next_guess()` (lines 115-126): return the single
remaining candidate when exactly one is left, otherwise run the minimax
search. -/
def next_guess (st : MastermindGame) : Except PyError (Option (List Color)) :=
  if st.possible_codes.length = 1 then
    Except.ok st.possible_codes.head?
  else
    minimax_guess st.all_codes st.possible_codes

/-- `worst(g)` of the specification (§4.4): partition the candidates by
`score(g, c)` and take the maximum partition size.  The partition size of a
feedback value is exactly its multiplicity in `possible.map (score g)`, i.e.
an entry of `feedback_counts.values()` in the source. -/
def worstOf (g : List Color) (possible : List (List Color)) : Nat :=
  listMax (countsList (possible.map (calculate_feedback g)))

/-- Minimum of a list of naturals (`none` for the empty list). -/
def minList : List Nat → Option Nat
  | [] => none
  | x :: xs => some (match minList xs with
      | none => x
      | some m => min x m)

/-- Specification-side selector, written from the spec's words (§4.4):
compute `worst(g)` for every `g` in the universe, take the minimum worst
value, and return the first `g` in the universe's enumeration order that
attains it (ties broken by enumeration order).  Stated separately from the
source-side `minimax_guess` so that the refinement claim can compare them. -/
def specSelectGuess (uni possible : List (List Color)) : Option (List Color) :=
  match minList (uni.map (fun g => worstOf g possible)) with
  | none => none
  | some m => uni.find? (fun g => worstOf g possible == m)

/-- Specification-side exact-match count, written from the spec's words
(§4.1): the number of index positions at which the two codes hold equal
symbols. -/
def exactIdx (guess code : List Color) : Nat :=
  (List.range guess.length).countP (fun i => decide (guess.get? i = code.get? i))

/-- A freshly constructed session: `MastermindGame(True, 4)` whose random
draw produced `('Red', 'Green', 'Yellow', 'Blue')`. -/
def stFresh : MastermindGame :=
  { allow_duplicates := true
    code_length := 4
    all_codes := productCodes 4
    secret_code := [Color.Red, Color.Green, Color.Yellow, Color.Blue]
    possible_codes := productCodes 4
    guesses := []
    feedbacks := [] }

/-- A session state whose candidate list holds a single code that conflicts
with the secret — the situation the spec's `InconsistentStateError` clause
is about: the next filtered candidate set is empty. -/
def stEmptyDemo : MastermindGame :=
  { allow_duplicates := true
    code_length := 4
    all_codes := productCodes 4
    secret_code := [Color.Red, Color.Green, Color.Yellow, Color.Blue]
    possible_codes := [[Color.Green, Color.Yellow, Color.Blue, Color.Purple]]
    guesses := []
    feedbacks := [] }

/-- The state reached from `stEmptyDemo` by playing `('Red','Red','Red','Red')`:
the feedback is `(1, 0)` and the filter empties the candidate list. -/
def stEmptyAfter : MastermindGame :=
  { allow_duplicates := true
    code_length := 4
    all_codes := productCodes 4
    secret_code := [Color.Red, Color.Green, Color.Yellow, Color.Blue]
    possible_codes := []
    guesses := [[Color.Red, Color.Red, Color.Red, Color.Red]]
    feedbacks := [((1 : Int), (0 : Int))] }

/-- A session over length-1 codes with two remaining candidates, used to
exercise the minimax branch of `next_guess` on a concrete input. -/
def stTwo : MastermindGame :=
  { allow_duplicates := true
    code_length := 1
    all_codes := productCodes 1
    secret_code := [Color.Red]
    possible_codes := [[Color.Red], [Color.Green]]
    guesses := []
    feedbacks := [] }

/-! ## Helper lemmas -/

/-- Every `Color` is an element of the module constant `COLORS`. -/
theorem mem_COLORS (s : Color) : s ∈ COLORS := by cases s <;> decide

/-- `itertools.product(COLORS, repeat=n)` enumerates exactly the length-`n`
codes. -/
theorem mem_productCodes (c : List Color) : ∀ n, c ∈ productCodes n ↔ c.length = n := by
  induction c with
  | nil =>
    intro n
    cases n with
    | zero => simp [productCodes]
    | succ n => simp [productCodes]
  | cons x c ih =>
    intro n
    cases n with
    | zero => simp [productCodes]
    | succ n =>
      simp only [productCodes, List.mem_flatMap, List.mem_map, List.length_cons]
      constructor
      · rintro ⟨a, _, r, hr, heq⟩
        injection heq with h1 h2
        subst h2
        simp [(ih n).mp hr]
      · intro h
        exact ⟨x, mem_COLORS x, c, (ih n).mpr (by omega), rfl⟩

/-- Members of `itertools.permutations(pool, n)` draw all their symbols from
`pool`. -/
theorem subset_of_mem_permCodes :
    ∀ (n : Nat) (pool : List Color) (c : List Color), c ∈ permCodes pool n →
      ∀ x ∈ c, x ∈ pool := by
  intro n
  induction n with
  | zero =>
    intro pool c hc
    simp [permCodes] at hc
    simp [hc]
  | succ n ih =>
    intro pool c hc x hx
    simp only [permCodes, List.mem_flatMap, List.mem_map] at hc
    obtain ⟨a, ha, r, hr, rfl⟩ := hc
    rcases List.mem_cons.mp hx with rfl | hx'
    · exact ha
    · exact List.mem_of_mem_erase (ih (pool.erase a) r hr x hx')

/-- Members of `itertools.permutations(pool, n)` have pairwise distinct
symbols whenever `pool` does. -/
theorem nodup_of_mem_permCodes :
    ∀ (n : Nat) (pool : List Color) (c : List Color), pool.Nodup →
      c ∈ permCodes pool n → c.Nodup := by
  intro n
  induction n with
  | zero =>
    intro pool c _ hc
    simp [permCodes] at hc
    simp [hc]
  | succ n ih =>
    intro pool c hpool hc
    simp only [permCodes, List.mem_flatMap, List.mem_map] at hc
    obtain ⟨a, ha, r, hr, rfl⟩ := hc
    refine List.nodup_cons.mpr ⟨fun hmem => ?_, ih (pool.erase a) r (hpool.erase a) hr⟩
    have : a ∈ pool.erase a := subset_of_mem_permCodes n (pool.erase a) r hr a hmem
    rw [hpool.mem_erase_iff] at this
    exact this.1 rfl

/-- The zip-based exact count of the source equals the index-based exact
count of the specification. -/
theorem exactMatches_eq_exactIdx (g : List Color) :
    ∀ c : List Color, exactMatches g c = exactIdx g c := by
  induction g with
  | nil => intro c; simp [exactMatches, exactIdx]
  | cons x g ih =>
    intro c
    cases c with
    | nil =>
      simp only [exactMatches, List.zip_nil_right, List.countP_nil]
      symm
      rw [exactIdx, List.countP_eq_zero]
      intro i hi
      rw [List.mem_range] at hi
      simp only [List.get?_nil, decide_eq_true_eq]
      intro hnone
      rw [List.get?_eq_none] at hnone
      omega
    | cons y c =>
      have hfun : ((fun i => decide ((x :: g).get? i = (y :: c).get? i)) ∘ Nat.succ)
          = fun i => decide (g.get? i = c.get? i) := by
        funext i
        simp [Function.comp]
      have hcons : exactIdx (x :: g) (y :: c)
          = exactIdx g c + (if x = y then 1 else 0) := by
        rw [exactIdx, List.length_cons, List.range_succ_eq_map, List.countP_cons,
          List.countP_map, hfun, ← exactIdx]
        simp
      rw [hcons, ← ih c]
      simp only [exactMatches, List.zip_cons_cons, List.countP_cons]
      simp

/-- A code is always kept by the filter run with its own truthful feedback. -/
theorem mem_filterCodes_self (possible : List (List Color)) (g s : List Color)
    (h : s ∈ possible) : s ∈ filterCodes possible g (calculate_feedback g s) := by
  simp [filterCodes, List.mem_filter, h]

/-! ## Claim theorems (C2 – C7, C10) -/

/-- C2: for equal-length codes the evaluator returns
`exact` = the number of index positions holding equal symbols and
`colorOnly` = (sum over distinct symbols of `guess` of the minimum of the two
occurrence counts) minus `exact`; on the worked example it returns (1, 1). -/
theorem C2_feedback_formula :
    (∀ (guess code : List Color), guess.length = code.length →
      calculate_feedback guess code =
        ((exactIdx guess code : Int),
         (colorTotal guess code : Int) - (exactIdx guess code : Int))) ∧
    calculate_feedback [Color.Red, Color.Red, Color.Green, Color.Green]
      [Color.Red, Color.Green, Color.Yellow, Color.Blue] = (1, 1) := by
  constructor
  · intro guess code _h
    simp [calculate_feedback, exactMatches_eq_exactIdx]
  · decide

/-- Witness for C2 at the spec's worked example. -/
theorem C2_witness :
    ([Color.Red, Color.Red, Color.Green, Color.Green] : List Color).length =
      ([Color.Red, Color.Green, Color.Yellow, Color.Blue] : List Color).length ∧
    calculate_feedback [Color.Red, Color.Red, Color.Green, Color.Green]
        [Color.Red, Color.Green, Color.Yellow, Color.Blue] =
      ((exactIdx [Color.Red, Color.Red, Color.Green, Color.Green]
          [Color.Red, Color.Green, Color.Yellow, Color.Blue] : Int),
       (colorTotal [Color.Red, Color.Red, Color.Green, Color.Green]
          [Color.Red, Color.Green, Color.Yellow, Color.Blue] : Int) -
       (exactIdx [Color.Red, Color.Red, Color.Green, Color.Green]
          [Color.Red, Color.Green, Color.Yellow, Color.Blue] : Int)) :=
  ⟨by decide, C2_feedback_formula.1 _ _ (by decide)⟩

/-- C3: a secret consistent with the reported feedback is never filtered
out, and consequently `play_turn` (whose feedback is computed truthfully from
the session's own secret) keeps the secret in `possible_codes`. -/
theorem C3_secret_retention :
    (∀ (possible : List (List Color)) (g s : List Color), s ∈ possible →
        s ∈ filterCodes possible g (calculate_feedback g s)) ∧
    (∀ (st : MastermindGame) (g : List Color) (solved : Bool) (st' : MastermindGame),
        st.secret_code ∈ st.possible_codes →
        play_turn st g = Except.ok (solved, st') →
        st.secret_code ∈ st'.possible_codes) := by
  refine ⟨fun possible g s h => mem_filterCodes_self possible g s h, ?_⟩
  intro st g solved st' hmem hplay
  by_cases h : calculate_feedback g st.secret_code = ((st.code_length : Int), (0 : Int))
  · rw [play_turn, if_pos h] at hplay
    injection hplay with hpair
    injection hpair with _ hst
    rw [← hst]
    exact hmem
  · rw [play_turn, if_neg h] at hplay
    injection hplay with hpair
    injection hpair with _ hst
    rw [← hst]
    exact mem_filterCodes_self st.possible_codes g st.secret_code hmem

/-- Witness for C3 at a concrete candidate list, guess and secret. -/
theorem C3_witness :
    [Color.Red] ∈ ([[Color.Red], [Color.Green]] : List (List Color)) ∧
    [Color.Red] ∈ filterCodes [[Color.Red], [Color.Green]] [Color.Green]
      (calculate_feedback [Color.Green] [Color.Red]) :=
  ⟨by decide, C3_secret_retention.1 [[Color.Red], [Color.Green]] [Color.Green]
    [Color.Red] (by decide)⟩

/-- C4 (code bug): when duplicates are allowed the full space
`itertools.product(COLORS, repeat=4)` contains codes with repeated colors,
yet `random.sample(COLORS, 4)` samples without replacement, so such codes
are outside the support of the secret draw — the secret is never a code with
duplicates, contradicting the claimed uniform draw over the legal space. -/
theorem C4_secret_draw_misses_duplicates :
    ([Color.Red, Color.Red, Color.Green, Color.Green] ∈ productCodes 4) ∧
    ([Color.Red, Color.Red, Color.Green, Color.Green] ∉ sampleSupport 4) := by
  constructor
  · rw [mem_productCodes]; rfl
  · intro hmem
    have hnd := nodup_of_mem_permCodes 4 COLORS _ (by decide) hmem
    exact absurd hnd (by decide)

/-- C5 counterexample: constructing with duplicates disallowed and length 7
over the 6-color alphabet does not raise `InvalidConfigurationError` (no such
class exists in the source). -/
theorem C5_counterexample :
    initGame false 7 [] ≠ Except.error PyError.invalidConfigurationError := by
  intro h
  rw [show initGame false 7 [] = Except.error PyError.valueError from rfl] at h
  exact PyError.noConfusion (Except.error.inj h)

/-- C5 amended: that construction does fail, but with the `ValueError` raised
by `random.sample(COLORS, 7)` (sample larger than population), whatever the
attempted draw; there is no explicit configuration validation. -/
theorem C5_construction_fails_with_valueError (d : List Color) :
    initGame false 7 d = Except.error PyError.valueError := rfl

/-- C6 counterexample: on a state where filtering empties the candidate set,
`play_turn` returns normally (`False`) with an empty `possible_codes` —
it signals no error of any kind. -/
theorem C6_counterexample :
    (play_turn stEmptyDemo [Color.Red, Color.Red, Color.Red, Color.Red]).map
      (fun r => (r.1, r.2.possible_codes)) =
    Except.ok (false, ([] : List (List Color))) := rfl

/-- C6 amended: an empty filter result is not detected: `play_turn` returns
`False` and continues as a normal game path, and the *next* call to
`next_guess` then crashes inside `_minimax_guess` with the `ValueError` of
`max()` on an empty sequence; no `InconsistentStateError` exists. -/
theorem C6_empty_filter_continues :
    play_turn stEmptyDemo [Color.Red, Color.Red, Color.Red, Color.Red] =
      Except.ok (false, stEmptyAfter) ∧
    stEmptyAfter.possible_codes = [] ∧
    next_guess stEmptyAfter = Except.error PyError.valueError :=
  ⟨rfl, rfl, rfl⟩

/-- C7 counterexample: a guess of the wrong length (an invalid guess) raises
nothing and mutates the session: the guess and its feedback are appended. -/
theorem C7_counterexample :
    initGame true 4 [Color.Red, Color.Green, Color.Yellow, Color.Blue] =
      Except.ok stFresh ∧
    ([Color.Red, Color.Red, Color.Red] : List Color).length ≠ stFresh.code_length ∧
    (play_turn stFresh [Color.Red, Color.Red, Color.Red]).map
        (fun r => (r.1, r.2.guesses, r.2.feedbacks)) =
      Except.ok (false, [[Color.Red, Color.Red, Color.Red]], [((1 : Int), (0 : Int))]) :=
  ⟨rfl, by decide, rfl⟩

/-- C7 amended: `play_turn` performs no validation whatsoever: for *every*
guess, valid or not, it raises nothing and mutates the session by appending
the guess and its feedback. -/
theorem C7_no_validation_always_mutates (st : MastermindGame) (g : List Color) :
    ∃ (solved : Bool) (st' : MastermindGame),
      play_turn st g = Except.ok (solved, st') ∧
      st'.guesses = st.guesses ++ [g] ∧
      st'.feedbacks = st.feedbacks ++ [calculate_feedback g st.secret_code] := by
  by_cases h : calculate_feedback g st.secret_code = ((st.code_length : Int), (0 : Int))
  · exact ⟨true, _, by rw [play_turn, if_pos h], rfl, rfl⟩
  · exact ⟨false, _, by rw [play_turn, if_neg h], rfl, rfl⟩

/-- C10: on a solving turn (feedback equal to `(code_length, 0)`) `play_turn`
returns `True` after appending to the histories but leaves `possible_codes`
untouched; on a non-solving turn it returns `False` and replaces
`possible_codes` by the filtered list. -/
theorem C10_solving_turn_skips_filter (st : MastermindGame) (g : List Color) :
    (calculate_feedback g st.secret_code = ((st.code_length : Int), (0 : Int)) →
      play_turn st g = Except.ok (true,
        { st with guesses := st.guesses ++ [g]
                  feedbacks := st.feedbacks ++ [calculate_feedback g st.secret_code] })) ∧
    (calculate_feedback g st.secret_code ≠ ((st.code_length : Int), (0 : Int)) →
      play_turn st g = Except.ok (false,
        { st with guesses := st.guesses ++ [g]
                  feedbacks := st.feedbacks ++ [calculate_feedback g st.secret_code]
                  possible_codes := filterCodes st.possible_codes g
                    (calculate_feedback g st.secret_code) })) := by
  constructor
  · intro h; rw [play_turn, if_pos h]
  · intro h; rw [play_turn, if_neg h]

/-- Witness for C10 on a solving turn of a freshly constructed session. -/
theorem C10_witness :
    calculate_feedback [Color.Red, Color.Green, Color.Yellow, Color.Blue]
        stFresh.secret_code = ((stFresh.code_length : Int), (0 : Int)) ∧
    play_turn stFresh [Color.Red, Color.Green, Color.Yellow, Color.Blue] =
      Except.ok (true,
        { stFresh with
            guesses := stFresh.guesses ++ [[Color.Red, Color.Green, Color.Yellow, Color.Blue]]
            feedbacks := stFresh.feedbacks ++
              [calculate_feedback [Color.Red, Color.Green, Color.Yellow, Color.Blue]
                stFresh.secret_code] }) :=
  ⟨by decide,
   (C10_solving_turn_skips_filter stFresh
     [Color.Red, Color.Green, Color.Yellow, Color.Blue]).1 (by decide)⟩

/-! ## Counting lemmas for symmetry and bounds -/

/-- The dedup-sum of the source equals the sum over the whole finite
alphabet: symbols absent from `guess` contribute `min 0 _ = 0`. -/
theorem colorTotal_eq_univ_sum (a b : List Color) :
    colorTotal a b = ∑ s : Color, min (a.count s) (b.count s) := by
  rw [colorTotal]
  have h1 : (a.dedup.map (fun s => min (a.count s) (b.count s))).sum
      = ∑ s in a.dedup.toFinset, min (a.count s) (b.count s) :=
    (List.sum_toFinset _ (List.nodup_dedup a)).symm
  have h2 : a.dedup.toFinset = a.toFinset :=
    List.toFinset.ext (fun x => List.mem_dedup)
  rw [h1, h2]
  refine Finset.sum_subset (Finset.subset_univ _) ?_
  intro s _ hs
  have : a.count s = 0 :=
    List.count_eq_zero.mpr (fun hmem => hs (List.mem_toFinset.mpr hmem))
  simp [this]

/-- Summing the occurrence counts of every symbol gives the length. -/
theorem sum_count_univ (a : List Color) : ∑ s : Color, a.count s = a.length :=
  calc ∑ s : Color, a.count s
      = ∑ s in a.toFinset, a.count s :=
        (Finset.sum_subset (Finset.subset_univ _)
          (fun s _ hs => List.count_eq_zero.mpr
            (fun hmem => hs (List.mem_toFinset.mpr hmem)))).symm
    _ = a.length := List.sum_toFinset_count_eq_length a

/-- The zip count of equal positions is symmetric in its arguments. -/
theorem exactMatches_comm (a b : List Color) : exactMatches a b = exactMatches b a := by
  rw [exactMatches, exactMatches, ← List.zip_swap b a, List.countP_map]
  congr 1
  funext gc
  simp [Function.comp, eq_comm]

/-- The exact-position count never exceeds the total color overlap. -/
theorem exactMatches_le_sum_min (a : List Color) :
    ∀ b : List Color, exactMatches a b ≤ ∑ s : Color, min (a.count s) (b.count s) := by
  induction a with
  | nil => intro b; simp [exactMatches]
  | cons x a ih =>
    intro b
    cases b with
    | nil => simp [exactMatches]
    | cons y b =>
      simp only [exactMatches, List.zip_cons_cons, List.countP_cons]
      by_cases hxy : x = y
      · subst hxy
        have hpt : ∀ s : Color, min ((x :: a).count s) ((x :: b).count s)
            = min (a.count s) (b.count s) + (if s = x then 1 else 0) := by
          intro s
          by_cases hs : s = x
          · subst hs
            simp [List.count_cons_self, min_add_add_right]
          · rw [List.count_cons_of_ne hs, List.count_cons_of_ne hs]
            simp [hs]
        have hsum : ∑ s : Color, min ((x :: a).count s) ((x :: b).count s)
            = (∑ s : Color, min (a.count s) (b.count s)) + 1 := by
          rw [Finset.sum_congr rfl (fun s _ => hpt s), Finset.sum_add_distrib]
          simp [Finset.sum_ite_eq']
        rw [hsum]
        have := ih b
        simp only [exactMatches] at this
        simp only [decide_eq_true_eq, eq_self_iff_true, if_true, decide_True]
        omega
      · have hpt : ∀ s : Color, min (a.count s) (b.count s)
            ≤ min ((x :: a).count s) ((y :: b).count s) := by
          intro s
          exact min_le_min (List.count_le_count_cons ..) (List.count_le_count_cons ..)
        have hle : (∑ s : Color, min (a.count s) (b.count s))
            ≤ ∑ s : Color, min ((x :: a).count s) ((y :: b).count s) :=
          Finset.sum_le_sum (fun s _ => hpt s)
        have := ih b
        simp only [exactMatches] at this
        have hif : (if (decide (x = y)) = true then 1 else 0) = 0 := by simp [hxy]
        omega

/-- The exact-position count never exceeds the guess length. -/
theorem exactMatches_le_length (a b : List Color) : exactMatches a b ≤ a.length :=
  calc exactMatches a b ≤ (a.zip b).length := List.countP_le_length _
    _ ≤ a.length := by rw [List.length_zip]; omega

/-- The total color overlap never exceeds the guess length. -/
theorem sum_min_le_length (a b : List Color) :
    ∑ s : Color, min (a.count s) (b.count s) ≤ a.length := by
  rw [← sum_count_univ a]
  exact Finset.sum_le_sum (fun s _ => min_le_left _ _)

/-! ## Claim theorems C8, C9 -/

/-- C8: the feedback evaluator is symmetric for equal-length codes, even
though the `colorOnly` traversal iterates only over the distinct symbols of
the first argument. -/
theorem C8_feedback_symmetric (a b : List Color) (h : a.length = b.length) :
    calculate_feedback a b = calculate_feedback b a := by
  have htotal : colorTotal a b = colorTotal b a := by
    rw [colorTotal_eq_univ_sum, colorTotal_eq_univ_sum]
    exact Finset.sum_congr rfl (fun s _ => min_comm _ _)
  rw [calculate_feedback, calculate_feedback, exactMatches_comm a b, htotal]

/-- Witness for C8 on a concrete equal-length pair. -/
theorem C8_witness :
    ([Color.Red, Color.Red] : List Color).length
      = ([Color.Green, Color.Red] : List Color).length ∧
    calculate_feedback [Color.Red, Color.Red] [Color.Green, Color.Red]
      = calculate_feedback [Color.Green, Color.Red] [Color.Red, Color.Red] :=
  ⟨by decide, C8_feedback_symmetric _ _ (by decide)⟩

/-- C9: for equal-length codes of length `L` the feedback satisfies
`0 ≤ exact ≤ L`, `0 ≤ colorOnly`, and `exact + colorOnly ≤ L`. -/
theorem C9_feedback_bounds (g c : List Color) (h : g.length = c.length) :
    0 ≤ (calculate_feedback g c).1 ∧
    (calculate_feedback g c).1 ≤ (g.length : Int) ∧
    0 ≤ (calculate_feedback g c).2 ∧
    (calculate_feedback g c).1 + (calculate_feedback g c).2 ≤ (g.length : Int) := by
  have h1 : exactMatches g c ≤ colorTotal g c := by
    rw [colorTotal_eq_univ_sum]
    exact exactMatches_le_sum_min g c
  have h2 : colorTotal g c ≤ g.length := by
    rw [colorTotal_eq_univ_sum]
    exact sum_min_le_length g c
  have h3 := exactMatches_le_length g c
  simp only [calculate_feedback]
  refine ⟨?_, ?_, ?_, ?_⟩ <;> omega

/-- Witness for C9 at the spec's worked example. -/
theorem C9_witness :
    ([Color.Red, Color.Red, Color.Green, Color.Green] : List Color).length =
      ([Color.Red, Color.Green, Color.Yellow, Color.Blue] : List Color).length ∧
    (0 ≤ (calculate_feedback [Color.Red, Color.Red, Color.Green, Color.Green]
        [Color.Red, Color.Green, Color.Yellow, Color.Blue]).1 ∧
     (calculate_feedback [Color.Red, Color.Red, Color.Green, Color.Green]
        [Color.Red, Color.Green, Color.Yellow, Color.Blue]).1 ≤
       (([Color.Red, Color.Red, Color.Green, Color.Green] : List Color).length : Int) ∧
     0 ≤ (calculate_feedback [Color.Red, Color.Red, Color.Green, Color.Green]
        [Color.Red, Color.Green, Color.Yellow, Color.Blue]).2 ∧
     (calculate_feedback [Color.Red, Color.Red, Color.Green, Color.Green]
        [Color.Red, Color.Green, Color.Yellow, Color.Blue]).1 +
       (calculate_feedback [Color.Red, Color.Red, Color.Green, Color.Green]
        [Color.Red, Color.Green, Color.Yellow, Color.Blue]).2 ≤
       (([Color.Red, Color.Red, Color.Green, Color.Green] : List Color).length : Int)) :=
  ⟨by decide, C9_feedback_bounds _ _ (by decide)⟩


/-! ## Minimax selector lemmas -/

/-- `minList` of the empty list. -/
theorem minList_nil : minList [] = none := rfl

/-- `minList` returns `none` exactly on the empty list. -/
theorem minList_eq_none_iff (l : List Nat) : minList l = none ↔ l = [] := by
  cases l with
  | nil => simp [minList]
  | cons x xs => simp [minList]

/-- `minList` on a cons whose tail has no minimum. -/
theorem minList_cons_none {x : Nat} {xs : List Nat} (h : minList xs = none) :
    minList (x :: xs) = some x := by
  rw [minList, h]

/-- `minList` on a cons whose tail has minimum `m`. -/
theorem minList_cons_some {x m : Nat} {xs : List Nat} (h : minList xs = some m) :
    minList (x :: xs) = some (min x m) := by
  rw [minList, h]

/-- `minList` returns a lower bound of the list. -/
theorem minList_le (l : List Nat) (m : Nat) (h : minList l = some m) :
    ∀ x ∈ l, m ≤ x := by
  induction l generalizing m with
  | nil => simp [minList] at h
  | cons x xs ih =>
    intro y hy
    cases hxs : minList xs with
    | none =>
      rw [minList_cons_none hxs] at h
      injection h with h
      rw [minList_eq_none_iff] at hxs
      subst hxs
      simp only [List.mem_singleton] at hy
      omega
    | some m' =>
      rw [minList_cons_some hxs] at h
      injection h with h
      rcases List.mem_cons.mp hy with rfl | hy'
      · exact le_trans (le_of_eq h.symm) (min_le_left _ _)
      · exact le_trans (le_trans (le_of_eq h.symm) (min_le_right _ _)) (ih m' hxs y hy')

/-- Unfolding `specSelectGuess` when the universe is empty of worst values. -/
theorem specSelectGuess_of_none {uni possible : List (List Color)}
    (h : minList (uni.map (fun g => worstOf g possible)) = none) :
    specSelectGuess uni possible = none := by
  rw [specSelectGuess, h]

/-- Unfolding `specSelectGuess` when the minimum worst value is `m`. -/
theorem specSelectGuess_of_some {uni possible : List (List Color)} {m : Nat}
    (h : minList (uni.map (fun g => worstOf g possible)) = some m) :
    specSelectGuess uni possible = uni.find? (fun g => worstOf g possible == m) := by
  rw [specSelectGuess, h]

/-- For a nonempty candidate list the dictionary maximum of `_minimax_guess`
is defined and equals the worst partition size. -/
theorem maxCount_eq_worstOf (g : List Color) (possible : List (List Color))
    (hp : possible ≠ []) :
    maxCount (possible.map (calculate_feedback g)) = some (worstOf g possible) := by
  cases possible with
  | nil => exact absurd rfl hp
  | cons c p => rfl

/-- The accumulator invariant of the guess loop of `_minimax_guess`:
starting from a current best `b` whose worst value is `w`, the loop returns
the first guess of `u` attaining the minimum worst value when that minimum
beats `w`, and `b` otherwise. -/
theorem minimax_fold_spec (possible : List (List Color)) (hp : possible ≠ [])
    (u : List (List Color)) :
    ∀ (b : List Color) (w : Nat),
      minimax_fold possible u (some b) (some w) = Except.ok
        ((minList (u.map (fun g => worstOf g possible))).elim (some b)
          (fun m => if m < w then u.find? (fun g => worstOf g possible == m)
                    else some b)) := by
  induction u with
  | nil => intro b w; rfl
  | cons g rest ih =>
    intro b w
    rw [minimax_fold, maxCount_eq_worstOf g possible hp]
    simp only [ltOptInf]
    by_cases hlt : worstOf g possible < w
    · rw [if_pos (by simpa using hlt), ih g (worstOf g possible)]
      cases h1 : minList (rest.map (fun g' => worstOf g' possible)) with
      | none =>
        have h1' := h1
        rw [minList_eq_none_iff, List.map_eq_nil_iff] at h1'
        subst h1'
        simp only [List.map_cons, List.map_nil, minList_cons_none minList_nil,
          Option.elim_none, Option.elim_some]
        rw [if_pos hlt, List.find?_cons_of_pos _ (by simp)]
      | some m =>
        simp only [List.map_cons, minList_cons_some h1, Option.elim_some]
        by_cases hmW : m < worstOf g possible
        · rw [if_pos hmW, min_eq_right (le_of_lt hmW), if_pos (lt_trans hmW hlt),
            List.find?_cons_of_neg _ (by simp; omega)]
        · rw [if_neg hmW, min_eq_left (by omega), if_pos hlt,
            List.find?_cons_of_pos _ (by simp)]
    · rw [if_neg (by simpa using hlt), ih b w]
      cases h1 : minList (rest.map (fun g' => worstOf g' possible)) with
      | none =>
        have h1' := h1
        rw [minList_eq_none_iff, List.map_eq_nil_iff] at h1'
        subst h1'
        simp only [List.map_cons, List.map_nil, minList_cons_none minList_nil,
          Option.elim_none, Option.elim_some]
        rw [if_neg (by omega)]
      | some m =>
        simp only [List.map_cons, minList_cons_some h1, Option.elim_some]
        by_cases hmw : m < w
        · have hmW : m < worstOf g possible := by omega
          rw [if_pos hmw, min_eq_right (le_of_lt hmW), if_pos hmw,
            List.find?_cons_of_neg _ (by simp; omega)]
        · rw [if_neg hmw,
            if_neg (not_lt.mpr (le_min (le_of_not_lt hlt) (le_of_not_lt hmw)))]

/-- `_minimax_guess` refines the specification-side selector whenever the
candidate list is nonempty. -/
theorem minimax_guess_spec (u possible : List (List Color)) (hp : possible ≠ []) :
    minimax_guess u possible = Except.ok (specSelectGuess u possible) := by
  cases u with
  | nil => rfl
  | cons g rest =>
    rw [minimax_guess, minimax_fold, maxCount_eq_worstOf g possible hp]
    simp only [ltOptInf, if_true]
    rw [minimax_fold_spec possible hp rest g (worstOf g possible)]
    cases h1 : minList (rest.map (fun g' => worstOf g' possible)) with
    | none =>
      have h1' := h1
      rw [minList_eq_none_iff, List.map_eq_nil_iff] at h1'
      subst h1'
      have hs : minList (([g] : List (List Color)).map (fun g' => worstOf g' possible))
          = some (worstOf g possible) := by
        simp only [List.map_cons, List.map_nil]
        exact minList_cons_none minList_nil
      rw [specSelectGuess_of_some hs]
      simp only [Option.elim_none]
      rw [List.find?_cons_of_pos _ (by simp)]
    | some m =>
      have hs : minList ((g :: rest).map (fun g' => worstOf g' possible))
          = some (min (worstOf g possible) m) := by
        simp only [List.map_cons]
        exact minList_cons_some h1
      rw [specSelectGuess_of_some hs]
      simp only [Option.elim_some]
      by_cases hmW : m < worstOf g possible
      · rw [if_pos hmW, min_eq_right (le_of_lt hmW),
          List.find?_cons_of_neg _ (by simp; omega)]
      · rw [if_neg hmW, min_eq_left (by omega),
          List.find?_cons_of_pos _ (by simp)]

/-! ## Claim theorem C1 -/

/-- C1: `next_guess` returns the single candidate directly when exactly one
remains; otherwise it returns exactly the specification's minimax selection
over the full universe `all_codes` — the first guess, in the universe's
enumeration order, whose worst-case partition size over `possible_codes` is
minimal — and any guess the spec-side selector returns is a member of the
universe attaining the minimum worst-case partition size. -/
theorem C1_minimax_contract (st : MastermindGame) :
    (∀ c : List Color, st.possible_codes = [c] →
        next_guess st = Except.ok (some c)) ∧
    (st.possible_codes.length ≠ 1 → st.possible_codes ≠ [] →
        next_guess st = Except.ok (specSelectGuess st.all_codes st.possible_codes)) ∧
    (∀ g : List Color, specSelectGuess st.all_codes st.possible_codes = some g →
        g ∈ st.all_codes ∧
        ∀ g' ∈ st.all_codes,
          worstOf g st.possible_codes ≤ worstOf g' st.possible_codes) := by
  refine ⟨?_, ?_, ?_⟩
  · intro c hc
    rw [next_guess, hc]
    simp
  · intro hlen hne
    rw [next_guess, if_neg hlen]
    exact minimax_guess_spec st.all_codes st.possible_codes hne
  · intro g hg
    cases hmin : minList (st.all_codes.map (fun g' => worstOf g' st.possible_codes)) with
    | none => rw [specSelectGuess_of_none hmin] at hg; exact absurd hg (by simp)
    | some m =>
      rw [specSelectGuess_of_some hmin] at hg
      refine ⟨List.mem_of_find?_eq_some hg, ?_⟩
      intro g' hg'
      have h1 : worstOf g st.possible_codes = m := by
        have := List.find?_some hg
        simpa using this
      rw [h1]
      exact minList_le _ m hmin _ (List.mem_map_of_mem _ hg')

/-- Witness for C1 on a concrete two-candidate session. -/
theorem C1_witness :
    stTwo.possible_codes.length ≠ 1 ∧ stTwo.possible_codes ≠ [] ∧
    next_guess stTwo = Except.ok (some [Color.Red]) := by
  refine ⟨by decide, by decide, ?_⟩
  rw [(C1_minimax_contract stTwo).2.1 (by decide) (by decide)]
  rfl
